import Mathlib

/-!
Shallow embedding of the scptui transfer engine (src/scpi/main.py and
src/scpi/ssh_client.py).  Paths and file names are modelled as lists of
characters (Lean `String` primitives do not reduce under `decide`); the
network, the remote filesystem and the SFTP layer are modelled as explicit
parameters recording what each primitive observed during one invocation.
-/

namespace Scptui

/-- Character-list model of a Python string. -/
abbrev Str : Type := List Char

/-- Literal helper: the character list of a Lean string literal. -/
def str (s : String) : Str := s.toList

/-! ### Remote path parsing (main.py, `parse_remote_path` lines 37-65) -/

/-- Split off the longest run of characters different from `c`: returns the
run and the remainder (which is either empty or starts with `c`).  This is
the greedy match of a `[^c]+`-style character class in the regex
`^(?:([^@]+)@)?([^:]+)(?::(\d+))?:(.*)$` of `parse_remote_path`. -/
def takeUntil (c : Char) : Str → Str × Str
  | [] => ([], [])
  | x :: xs =>
    if x = c then ([], x :: xs)
    else
      let r := takeUntil c xs
      (x :: r.1, r.2)

/-- Match `([^:]+)(?::(\d+))?:(.*)$` against `l`: the host is the nonempty
run before the first colon; the optional port group matches when the first
colon is followed by a nonempty digit run and then another colon (greedy
`\d+` cannot backtrack into a colon, so only the maximal digit run is
tried); otherwise the first colon is the mandatory separator and the rest
is the path.  Returns `(host, port digits?, path)`. -/
def matchHostPortPath (l : Str) : Option (Str × Option Str × Str) :=
  let hp := takeUntil ':' l
  if hp.1 = [] then none
  else
    match hp.2 with
    | ':' :: r =>
      let ds := r.takeWhile Char.isDigit
      match ds, r.drop ds.length with
      | d :: ds2, ':' :: pa => some (hp.1, some (d :: ds2), pa)
      | _, _ => some (hp.1, none, r)
    | _ => none

/-- Match the full pattern `^(?:([^@]+)@)?([^:]+)(?::(\d+))?:(.*)$` with
Python backtracking semantics: the optional user group (the nonempty text
before the first `@`) is preferred; if the remainder then fails to match,
the engine retries without the user group against the whole string.
Returns `(user?, host, port digits?, path)`. -/
def matchRemote (s : Str) : Option (Option Str × Str × Option Str × Str) :=
  let ua := takeUntil '@' s
  let noUser : Option (Option Str × Str × Option Str × Str) :=
    match matchHostPortPath s with
    | some (h, p, pa) => some (none, h, p, pa)
    | none => none
  match ua.2 with
  | '@' :: afterAt =>
    if ua.1 = [] then noUser
    else
      match matchHostPortPath afterAt with
      | some (h, p, pa) => some (some ua.1, h, p, pa)
      | none => noUser
  | _ => noUser

/-- Python `int` on a digit string. -/
def digitsToNat (ds : Str) : ℕ :=
  ds.foldl (fun a c => a * 10 + (c.toNat - '0'.toNat)) 0

/-- `RemotePath` dataclass (main.py lines 12-18). -/
structure RemotePath where
  user : Option Str
  host : Str
  path : Str
  port : ℕ
deriving DecidableEq

/-- `parse_remote_path` (main.py lines 37-65): regex match, then
`port=int(port) if port else 22`. -/
def parse_remote_path (s : Str) : Option RemotePath :=
  match matchRemote s with
  | none => none
  | some (u, h, p, pa) =>
    some { user := u, host := h, path := pa,
           port := match p with | some ds => digitsToNat ds | none => 22 }

/-- The port digits explicitly embedded in the path string: `some` exactly
when the regex's optional port group matched. -/
def embeddedPort (s : Str) : Option ℕ :=
  match matchRemote s with
  | some (_, _, some ds, _) => some (digitsToNat ds)
  | _ => none

/-- Port resolution in `parse_arguments` (main.py lines 153-156):
`if remote.port == 22 and args.port != 22: remote.port = args.port`. -/
def resolvePort (pathPort flagPort : ℕ) : ℕ :=
  if pathPort = 22 ∧ flagPort ≠ 22 then flagPort else pathPort

/-! ### Listing entries and the shared sort key
(`list_local_files` main.py line 235, `list_remote_files` ssh_client.py
line 253: `sorted(items, key=lambda x: (not x[1], x[0].lower()))`) -/

/-- One listing tuple
`(filename, is_directory, size, is_symlink, symlink_target, target_is_dir, ctime, mtime)`. -/
structure Entry where
  name : Str
  isDir : Bool
  size : ℕ
  isSymlink : Bool
  symlinkTarget : Str
  targetIsDir : Bool
  ctime : ℕ
  mtime : ℕ
deriving DecidableEq

/-- Python `str.lower()` restricted to ASCII case mapping. -/
def lowerStr (s : Str) : Str := s.map Char.toLower

/-- Lexicographic string comparison (Python `<=` on strings, by code
point). -/
def lexLe : Str → Str → Bool
  | [], _ => true
  | _ :: _, [] => false
  | a :: as, b :: bs =>
    if a < b then true
    else if b < a then false
    else lexLe as bs

/-- The sort key order of both listing functions: the tuple
`(not is_directory, name.lower())` compared lexicographically, so
directories come first and ties are broken by case-insensitive name. -/
def entryLE (a b : Entry) : Bool :=
  (a.isDir && !b.isDir) || (a.isDir == b.isDir && lexLe (lowerStr a.name) (lowerStr b.name))

/-- Python `sorted` with the shared key: a stable sort under `entryLE`
(insertion sort is stable, like Python's sort, so it computes the same
output list). -/
def sortListing (es : List Entry) : List Entry :=
  List.insertionSort (fun a b => entryLE a b = true) es

/-! ### Local directory listing (`list_local_files`, main.py lines 184-238) -/

/-- Result of a successful (symlink-following) `stat`. -/
structure LStat where
  isDir : Bool
  size : ℕ
  ctime : ℕ
  mtime : ℕ
deriving DecidableEq

/-- Environment view of one `Path.iterdir()` item.  For a `plain` item
`info` is its own stat.  For a `link` item, `linkOk` tells whether
`readlink`/resolution succeeded, `target` is the resolved target string,
and `targetInfo` is the following-`stat` result (`none` when the target
does not exist, in which case `Path.stat()` raises `FileNotFoundError`). -/
inductive LocalItem where
  | plain : Str → LStat → LocalItem
  | link : Str → Bool → Str → Option LStat → LocalItem
deriving DecidableEq

/-- Loop body of `list_local_files` (main.py lines 202-233) for one item:
`none` models an exception escaping to the whole-listing handler (the
unguarded `item.stat()` at line 229 raises when a symlink's target is
missing). -/
def processLocal : LocalItem → Option Entry
  | .plain n info =>
    some { name := n, isDir := info.isDir,
           size := if info.isDir then 0 else info.size,
           isSymlink := false, symlinkTarget := [], targetIsDir := false,
           ctime := info.ctime, mtime := info.mtime }
  | .link n linkOk target targetInfo =>
    let isDir0 : Bool := match targetInfo with
      | some s => s.isDir
      | none => false
    let fields : Str × Bool × Bool :=
      if linkOk then
        match targetInfo with
        | some s => (target, s.isDir, s.isDir)
        | none => (target ++ str " (broken link)", isDir0, false)
      else (str "(broken link)", isDir0, false)
    match targetInfo with
    | none => none
    | some s =>
      some { name := n, isDir := fields.2.1,
             size := if fields.2.1 then 0 else s.size,
             isSymlink := true, symlinkTarget := fields.1,
             targetIsDir := fields.2.2, ctime := s.ctime, mtime := s.mtime }

/-- `list_local_files` (main.py lines 184-238): builds the tuples, sorts
them; the whole loop is wrapped in one `try` whose handler returns `[]`,
so a single raising item discards the entire listing. -/
def list_local_files (items : List LocalItem) : List Entry :=
  match items.mapM processLocal with
  | some es => sortListing es
  | none => []

/-! ### Remote directory listing (`list_remote_files`, ssh_client.py
lines 175-278) -/

/-- Exclusive `st_mode` file kinds (`stat.S_ISDIR` / `stat.S_ISLNK`). -/
inductive FileKind where
  | dir : FileKind
  | regular : FileKind
  | symlink : FileKind
deriving DecidableEq

/-- Environment view of one `listdir_attr` entry plus what the symlink
round trips observed: `readlinkOk`/`linkTarget` describe
`sftp.readlink(full_path)` and `targetStat` the following
`sftp.stat(full_path)` (`none` means it raised: broken link). -/
structure RemoteItem where
  filename : Str
  kind : FileKind
  st_size : ℕ
  st_mtime : ℕ
  readlinkOk : Bool
  linkTarget : Str
  targetStat : Option LStat
deriving DecidableEq

/-- Python `rstrip('/')`. -/
def rstripSlashes (s : Str) : Str :=
  (s.reverse.dropWhile (fun c => c == '/')).reverse

/-- Bool test that `s` starts with `pat` (Python `str.startswith`). -/
def strStarts : Str → Str → Bool
  | _, [] => true
  | [], _ :: _ => false
  | c :: cs, d :: ds => c == d && strStarts cs ds

/-- Loop body of `list_remote_files` (ssh_client.py lines 212-250) for one
entry.  A symlink whose `readlink` or follow-`stat` raises is recorded
with target `"(broken link)"`, keeps the link's own (non-directory) mode
and size, and the enumeration continues: the per-entry handler is inside
the loop. -/
def processRemote (remotePath : Str) (e : RemoteItem) : Entry :=
  let isDir : Bool := e.kind == FileKind.dir
  let size : ℕ := if isDir then 0 else e.st_size
  if e.kind == FileKind.symlink then
    if e.readlinkOk then
      let t : Str :=
        if strStarts e.linkTarget (str "/") then e.linkTarget
        else rstripSlashes remotePath ++ str "/" ++ e.linkTarget
      match e.targetStat with
      | some s =>
        { name := e.filename, isDir := s.isDir,
          size := if s.isDir then 0 else s.size,
          isSymlink := true, symlinkTarget := t, targetIsDir := s.isDir,
          ctime := s.mtime, mtime := s.mtime }
      | none =>
        { name := e.filename, isDir := isDir, size := size,
          isSymlink := true, symlinkTarget := str "(broken link)",
          targetIsDir := false, ctime := e.st_mtime, mtime := e.st_mtime }
    else
      { name := e.filename, isDir := isDir, size := size,
        isSymlink := true, symlinkTarget := str "(broken link)",
        targetIsDir := false, ctime := e.st_mtime, mtime := e.st_mtime }
  else
    { name := e.filename, isDir := isDir, size := size,
      isSymlink := false, symlinkTarget := [], targetIsDir := false,
      ctime := e.st_mtime, mtime := e.st_mtime }

/-- The successful body of `list_remote_files`: build all tuples, then
sort with the shared key (ssh_client.py lines 211-253). -/
def listRemoteEntries (remotePath : Str) (items : List RemoteItem) : List Entry :=
  sortListing (items.map (processRemote remotePath))

/-- Outcome of one `sftp.listdir_attr` attempt: success with the observed
entries, a transport-class error (`OSError`/`EOFError`/`SSHException`/
`socket.error`), or an unexpected exception. -/
inductive AttemptResult where
  | ok : List RemoteItem → AttemptResult
  | transportErr : AttemptResult
  | otherErr : AttemptResult
deriving DecidableEq

/-- Environment of one `list_remote_files` call: whether the initial
`ensure_connection` succeeds, the first attempt's outcome, whether the
forced reconnect succeeds, and the retry's outcome. -/
structure ListEnv where
  ensureOk : Bool
  first : AttemptResult
  reconnectOk : Bool
  second : AttemptResult
deriving DecidableEq

/-- `list_remote_files` retry wrapper (ssh_client.py lines 203-278),
returning the listing together with the number of `listdir_attr` attempts
made.  Transport errors on the first attempt trigger a forced
close-and-reconnect and exactly one retry; every failure path returns the
empty list. -/
def list_remote_files (remotePath : Str) (env : ListEnv) : List Entry × ℕ :=
  if !env.ensureOk then ([], 0)
  else
    match env.first with
    | .ok items => (listRemoteEntries remotePath items, 1)
    | .otherErr => ([], 1)
    | .transportErr =>
      if !env.reconnectOk then ([], 1)
      else
        match env.second with
        | .ok items => (listRemoteEntries remotePath items, 2)
        | .transportErr => ([], 2)
        | .otherErr => ([], 2)

/-! ### Home expansion (`expand_remote_path`, ssh_client.py lines 127-156) -/

/-- `expand_remote_path`: `hasClient` models `self.client`, `homeRes`
models the `echo $HOME` round trip (`none` when it raises, otherwise the
stripped output).  Only `~` itself and `~/...` are rewritten; every other
input, and every failure, returns the input unchanged. -/
def expand_remote_path (hasClient : Bool) (homeRes : Option Str) (p : Str) : Str :=
  if p.isEmpty || !hasClient then p
  else if strStarts p (str "~") then
    match homeRes with
    | none => p
    | some home =>
      if !home.isEmpty then
        if p = str "~" then home
        else if strStarts p (str "~/") then home ++ p.drop 1
        else p
      else p
  else p

/-! ### Transfer orchestration (`perform_copy` main.py lines 241-336,
`upload_file`/`upload_directory` ssh_client.py lines 280-433 and 615-676)

The cancellation flag written by the UI thread is monotonic (false, then
true forever), so a run is modelled by the number `b` of cancellation
polls that still return false: each poll decrements the budget and a poll
at budget 0 returns true.  A leaf transfer is abstracted to its entry
cancellation check plus an environment-given outcome `ok` (mid-transfer
progress polling is folded into `ok`); each function also returns the
names of the leaf transfers it attempted, in order. -/

/-- A transfer item: a file leaf with its environment-given outcome, or a
directory with children in enumeration order. -/
inductive Item where
  | file : Str → Bool → Item
  | dir : Str → List Item → Item

/-- `upload_file` (ssh_client.py lines 280-433): cancellation check on
entry (line 299), then the transfer with outcome `ok`.  Returns
`(result, polls left, attempted leaves)`. -/
def upload_file (name : Str) (ok : Bool) (b : ℕ) : Bool × ℕ × List Str :=
  match b with
  | 0 => (false, 0, [])
  | b + 1 => (ok, b, [name])

mutual

/-- Dispatch of one item as in the loops of `perform_copy` and
`upload_directory`: `is_dir` selects the directory or the file primitive.
The directory case is the body of `upload_directory` (ssh_client.py lines
615-676): cancellation check on entry (line 634), then the child loop. -/
def uploadItem : Item → ℕ → Bool × ℕ × List Str
  | .file n ok, b => upload_file n ok b
  | .dir _ cs, b =>
    match b with
    | 0 => (false, 0, [])
    | b + 1 => uploadChildren cs true b

/-- Child loop of `upload_directory` (lines 649-671): a cancellation check
before each child returns `False` immediately (line 653); a child failure
only clears `all_success` and the loop continues with the next sibling. -/
def uploadChildren : List Item → Bool → ℕ → Bool × ℕ × List Str
  | [], acc, b => (acc, b, [])
  | it :: rest, acc, b =>
    match b with
    | 0 => (false, 0, [])
    | b + 1 =>
      let r := uploadItem it b
      let r2 := uploadChildren rest (acc && r.1) r.2.1
      (r2.1, r2.2.1, r.2.2 ++ r2.2.2)

end

/-- `upload_directory` (ssh_client.py lines 615-676) stated on its own:
cancellation check on entry, then the child loop; equal by definition to
`uploadItem` on a directory item. -/
def upload_directory (cs : List Item) (b : ℕ) : Bool × ℕ × List Str :=
  match b with
  | 0 => (false, 0, [])
  | b + 1 => uploadChildren cs true b

/-- Item loop of `perform_copy` (main.py lines 283-327): a cancellation
check before each item returns `False` immediately (lines 285-288); a
failed item only clears `all_success` (lines 308-310, 325-327). -/
def performItems : List Item → Bool → ℕ → Bool × ℕ × List Str
  | [], acc, b => (acc, b, [])
  | it :: rest, acc, b =>
    match b with
    | 0 => (false, 0, [])
    | b + 1 =>
      let r := uploadItem it b
      let r2 := performItems rest (acc && r.1) r.2.1
      (r2.1, r2.2.1, r.2.2 ++ r2.2.2)

/-- `perform_copy` (main.py lines 241-336): `all_success` starts `True`,
the item loop runs, and the aggregate boolean is returned (line 336). -/
def perform_copy (items : List Item) (b : ℕ) : Bool × ℕ × List Str :=
  performItems items true b

mutual

/-- Number of cancellation polls a never-cancelled run of one item makes. -/
def pollsItem : Item → ℕ
  | .file _ _ => 1
  | .dir _ cs => pollsList cs + 1

/-- Number of cancellation polls a never-cancelled child loop makes (one
pre-item poll plus the item's own polls, per item). -/
def pollsList : List Item → ℕ
  | [] => 0
  | it :: rest => pollsList rest + pollsItem it + 1

end

mutual

/-- Conjunction of the outcomes of every leaf transfer below one item. -/
def allOkItem : Item → Bool
  | .file _ ok => ok
  | .dir _ cs => allOkList cs

/-- Conjunction of the outcomes of every leaf transfer below a list. -/
def allOkList : List Item → Bool
  | [] => true
  | it :: rest => allOkItem it && allOkList rest

end

mutual

/-- Names of the leaf transfers below one item, in traversal order. -/
def leavesItem : Item → List Str
  | .file n _ => [n]
  | .dir _ cs => leavesList cs

/-- Names of the leaf transfers below a list, in traversal order. -/
def leavesList : List Item → List Str
  | [] => []
  | it :: rest => leavesItem it ++ leavesList rest

end

/-! ### Cancellation cleanup of a single-file transfer
(`download_file` ssh_client.py lines 530-564, `upload_file` lines
381-409) -/

/-- A filesystem side, as the set of paths that exist. -/
abbrev FS : Type := List Str

/-- `download_file` when `sftp.get` raises with the cancellation flag set
(lines 530-564): `midWrite` tells whether the interrupted `get` had
already created the local file; the handler removes the file when it
exists (lines 538-543) and returns `False` (line 564). -/
def download_file_cancelled (fs : FS) (localPath : Str) (midWrite : Bool) : Bool × FS :=
  let fs1 := if midWrite then localPath :: fs else fs
  let fs2 := if fs1.contains localPath then fs1.filter (fun q => q != localPath) else fs1
  (false, fs2)

/-- `upload_file` when `sftp.put` raises with the cancellation flag set
(lines 381-409): no destination cleanup is performed before returning
`False` (line 407), so a partially written remote file stays. -/
def upload_file_cancelled (fs : FS) (remotePath : Str) (midWrite : Bool) : Bool × FS :=
  let fs1 := if midWrite then remotePath :: fs else fs
  (false, fs1)

/-! ### Progress reporting (`check_cancel_and_report`, ssh_client.py
lines 344-373 and 493-522)

The report condition
`transferred == total or progress_percent - last_percent >= 1`, with
`progress_percent = transferred / total * 100` (and `0` when `total` is
`0`), is embedded in exact arithmetic:
`(transferred - last) / total * 100 >= 1` iff
`100 * last + total <= 100 * transferred`. -/

/-- One evaluation of the emit condition against the last reported byte
count. -/
def reportCond (total last transferred : ℕ) : Bool :=
  transferred == total || (decide (0 < total) && decide (100 * last + total ≤ 100 * transferred))

/-- Run the callback over a sequence of `(transferred, total)` byte counts
(`total` fixed per file): returns the byte counts at which a progress
event is emitted; `last_reported` is updated only on emission (lines
360-373 and 509-522). -/
def progressEmits (total : ℕ) : ℕ → List ℕ → List ℕ
  | _, [] => []
  | last, t :: ts =>
    if reportCond total last t then t :: progressEmits total t ts
    else progressEmits total last ts

/-- The emitted progress events of one file transfer with a progress sink
attached (`last_reported` starts at 0, lines 376 and 525). -/
def run_progress (total : ℕ) (calls : List ℕ) : List ℕ :=
  progressEmits total 0 calls

/-! ### Helper lemmas -/

mutual

theorem uploadItem_run : ∀ (it : Item) (b : ℕ),
    uploadItem it (b + pollsItem it) = (allOkItem it, b, leavesItem it)
  | .file n ok, b => by
    simp [uploadItem, upload_file, pollsItem, allOkItem, leavesItem]
  | .dir n cs, b => by
    have h := uploadChildren_run cs true b
    simpa [uploadItem, pollsItem, allOkItem, leavesItem] using h

theorem uploadChildren_run : ∀ (l : List Item) (acc : Bool) (b : ℕ),
    uploadChildren l acc (b + pollsList l) = (acc && allOkList l, b, leavesList l)
  | [], acc, b => by
    simp [uploadChildren, pollsList, allOkList, leavesList]
  | it :: rest, acc, b => by
    have h1 := uploadItem_run it (b + pollsList rest)
    have h2 := uploadChildren_run rest (acc && allOkItem it) b
    have hb : b + pollsList (it :: rest) = b + pollsList rest + pollsItem it + 1 := by
      simp [pollsList]; omega
    rw [hb]
    simp only [uploadChildren]
    rw [h1]
    simp only []
    rw [h2]
    simp [allOkList, leavesList, Bool.and_assoc]

end

theorem performItems_run : ∀ (l : List Item) (acc : Bool) (b : ℕ),
    performItems l acc (b + pollsList l) = (acc && allOkList l, b, leavesList l)
  | [], acc, b => by
    simp [performItems, pollsList, allOkList, leavesList]
  | it :: rest, acc, b => by
    have h1 := uploadItem_run it (b + pollsList rest)
    have h2 := performItems_run rest (acc && allOkItem it) b
    have hb : b + pollsList (it :: rest) = b + pollsList rest + pollsItem it + 1 := by
      simp [pollsList]; omega
    rw [hb]
    simp only [performItems]
    rw [h1]
    simp only []
    rw [h2]
    simp [allOkList, leavesList, Bool.and_assoc]

theorem performItems_cancel : ∀ (l : List Item) (k : ℕ) (acc : Bool), k < l.length →
    performItems l acc (pollsList (l.take k)) = (false, 0, leavesList (l.take k))
  | [], k, acc, h => absurd h (by simp)
  | it :: rest, 0, acc, h => by
    simp [performItems, pollsList, leavesList]
  | it :: rest, k + 1, acc, h => by
    have h1 := uploadItem_run it (pollsList (rest.take k))
    have h2 := performItems_cancel rest k (acc && allOkItem it) (by simpa using h)
    simp only [List.take_succ_cons, pollsList, leavesList]
    simp only [performItems]
    rw [h1]
    simp only []
    rw [h2]

theorem not_mem_filter_ne (fs : FS) (p : Str) :
    p ∉ fs.filter (fun q => q != p) := by
  intro hmem
  have h := List.of_mem_filter hmem
  simp at h

/-! ### Claim theorems -/

/-- Claim C1 (code_bug evaluation): the path `user@host:22:/data` embeds
the explicit port 22, yet with `-P 2222` the resolution of
`parse_arguments` (main.py lines 153-156) replaces it with 2222 — the
`-P` flag overrides an explicitly embedded port 22, contradicting the
documented precedence `path > -P flag > default(22)`. -/
theorem c1_flag_overrides_embedded_port_22 :
    embeddedPort (str "user@host:22:/data") = some 22 ∧
    parse_remote_path (str "user@host:22:/data") =
      some { user := some (str "user"), host := str "host",
             path := str "/data", port := 22 } ∧
    resolvePort 22 2222 = 2222 ∧ resolvePort 22 2222 ≠ 22 :=
  ⟨by decide, by decide, by decide, by decide⟩

/-- Claim C2: with enough polling budget that cancellation never fires,
`perform_copy` attempts every leaf transfer in traversal order — siblings
are attempted even after a failure — and its boolean result is the
conjunction of every leaf outcome. -/
theorem c2_aggregate_and_of_all_leaves (items : List Item) (b : ℕ) :
    perform_copy items (b + pollsList items) = (allOkList items, b, leavesList items) := by
  simpa [perform_copy] using performItems_run items true b

/-- Claim C3: if the cancellation predicate first returns true at the
poll point before item `k` (budget exactly the polls of items `1..k-1`),
then `perform_copy` has fully processed items `1..k-1` (their leaves are
exactly the attempted transfers), attempts nothing from item `k` on, and
returns `False` immediately. -/
theorem c3_cancel_before_item_k (items : List Item) (k : ℕ) (h : k < items.length) :
    perform_copy items (pollsList (items.take k)) = (false, 0, leavesList (items.take k)) :=
  performItems_cancel items k true h

/-- Witness for C3 at a concrete two-item sequence with cancellation
before the second item. -/
theorem c3_cancel_before_item_k_witness :
    1 < ([Item.file (str "a") true, Item.file (str "b") true] : List Item).length ∧
    perform_copy [Item.file (str "a") true, Item.file (str "b") true]
      (pollsList ([Item.file (str "a") true, Item.file (str "b") true].take 1)) =
      (false, 0, [str "a"]) :=
  ⟨by decide,
   by
    have h := c3_cancel_before_item_k
      [Item.file (str "a") true, Item.file (str "b") true] 1 (by decide)
    simpa using h⟩

/-- Claim C4: when a single-file download is cancelled mid-transfer the
partially written local file is removed before returning `False` (no
partial file remains at the destination), while a cancelled upload
returns `False` without any destination cleanup, so a partially written
remote file stays. -/
theorem c4_cancel_cleanup_asymmetry (lfs rfs : FS) (lp rp : Str) (midWrite : Bool) :
    (download_file_cancelled lfs lp midWrite).1 = false ∧
    lp ∉ (download_file_cancelled lfs lp midWrite).2 ∧
    (upload_file_cancelled rfs rp midWrite).1 = false ∧
    (midWrite = true → rp ∈ (upload_file_cancelled rfs rp midWrite).2) ∧
    (midWrite = false → (upload_file_cancelled rfs rp midWrite).2 = rfs) := by
  refine ⟨rfl, ?_, rfl, ?_, ?_⟩
  · simp only [download_file_cancelled]
    split
    · split
      · exact not_mem_filter_ne _ lp
      · next hc => simpa using hc
    · split
      · exact not_mem_filter_ne _ lp
      · next hc => simpa using hc
  · intro hm
    simp [upload_file_cancelled, hm]
  · intro hm
    simp [upload_file_cancelled, hm]

/-- Witness for C4 at concrete filesystems and paths. -/
theorem c4_cancel_cleanup_asymmetry_witness :
    (download_file_cancelled [] (str "f") true).1 = false ∧
    str "f" ∉ (download_file_cancelled [] (str "f") true).2 ∧
    str "g" ∈ (upload_file_cancelled [] (str "g") true).2 := by
  obtain ⟨h1, h2, h3, h4, h5⟩ :=
    c4_cancel_cleanup_asymmetry [] [] (str "f") (str "g") true
  exact ⟨h1, h2, h4 rfl⟩

/-- Claim C10: a copy invocation over the empty item sequence returns
`True`, attempts no transfer, and consumes no cancellation poll, for any
state of the cancellation flag. -/
theorem c10_empty_copy_returns_true (b : ℕ) :
    perform_copy [] b = (true, b, []) := rfl

theorem lexLe_total : ∀ a b : Str, lexLe a b = true ∨ lexLe b a = true
  | [], b => Or.inl rfl
  | a :: as, [] => Or.inr rfl
  | a :: as, b :: bs => by
    rcases lt_trichotomy a b with h | h | h
    · left; simp [lexLe, h]
    · subst h
      rcases lexLe_total as bs with ih | ih
      · left; simp [lexLe, ih]
      · right; simp [lexLe, ih]
    · right; simp [lexLe, h]

theorem lexLe_trans : ∀ a b c : Str, lexLe a b = true → lexLe b c = true → lexLe a c = true
  | [], _, _, _, _ => rfl
  | a :: as, [], c, h1, _ => by simp [lexLe] at h1
  | a :: as, b :: bs, [], _, h2 => by simp [lexLe] at h2
  | a :: as, b :: bs, c :: cs, h1, h2 => by
    rcases lt_trichotomy a b with hab | hab | hab
    · rcases lt_trichotomy b c with hbc | hbc | hbc
      · simp [lexLe, lt_trans hab hbc]
      · subst hbc; simp [lexLe, hab]
      · rw [lexLe, if_neg (asymm hbc), if_pos hbc] at h2
        exact absurd h2 (by simp)
    · subst hab
      rcases lt_trichotomy a c with hbc | hbc | hbc
      · simp [lexLe, hbc]
      · subst hbc
        rw [lexLe, if_neg (lt_irrefl a), if_neg (lt_irrefl a)] at h1 h2
        rw [lexLe, if_neg (lt_irrefl a), if_neg (lt_irrefl a)]
        exact lexLe_trans as bs cs h1 h2
      · rw [lexLe, if_neg (asymm hbc), if_pos hbc] at h2
        exact absurd h2 (by simp)
    · rw [lexLe, if_neg (asymm hab), if_pos hab] at h1
      exact absurd h1 (by simp)

theorem entryLE_total : ∀ a b : Entry, entryLE a b = true ∨ entryLE b a = true := by
  intro a b
  by_cases hd : a.isDir = b.isDir
  · rcases lexLe_total (lowerStr a.name) (lowerStr b.name) with h | h
    · left; simp [entryLE, hd, h]
    · right; simp [entryLE, hd, h]
  · cases ha : a.isDir <;> cases hb : b.isDir <;>
      simp [ha, hb] at hd ⊢ <;> simp [entryLE, ha, hb]

theorem entryLE_trans : ∀ a b c : Entry,
    entryLE a b = true → entryLE b c = true → entryLE a c = true := by
  intro a b c hab hbc
  simp only [entryLE, Bool.or_eq_true, Bool.and_eq_true, Bool.not_eq_true',
    beq_iff_eq] at hab hbc ⊢
  rcases hab with ⟨ha, hb⟩ | ⟨hab, hlab⟩
  · rcases hbc with ⟨hb2, hc⟩ | ⟨hbc, hlbc⟩
    · rw [hb] at hb2; exact absurd hb2 (by simp)
    · left; exact ⟨ha, hbc ▸ hb⟩
  · rcases hbc with ⟨hb2, hc⟩ | ⟨hbc, hlbc⟩
    · left; exact ⟨hab ▸ hb2, hc⟩
    · right; exact ⟨hab.trans hbc, lexLe_trans _ _ _ hlab hlbc⟩

theorem sortListing_pairwise (es : List Entry) :
    List.Pairwise (fun a b => entryLE a b = true) (sortListing es) := by
  haveI : IsTotal Entry (fun a b => entryLE a b = true) := ⟨entryLE_total⟩
  haveI : IsTrans Entry (fun a b => entryLE a b = true) :=
    ⟨fun a b c => entryLE_trans a b c⟩
  exact List.sorted_insertionSort _ es

theorem entryLE_dirs_first {a b : Entry} (h : entryLE a b = true) :
    b.isDir = true → a.isDir = true := by
  intro hb
  simp only [entryLE, Bool.or_eq_true, Bool.and_eq_true, Bool.not_eq_true',
    beq_iff_eq] at h
  rcases h with ⟨ha, _⟩ | ⟨heq, _⟩
  · exact ha
  · exact heq.trans hb

theorem entryLE_name_order {a b : Entry} (h : entryLE a b = true) :
    a.isDir = b.isDir → lexLe (lowerStr a.name) (lowerStr b.name) = true := by
  intro heq
  simp only [entryLE, Bool.or_eq_true, Bool.and_eq_true, Bool.not_eq_true',
    beq_iff_eq] at h
  rcases h with ⟨ha, hb⟩ | ⟨_, hl⟩
  · rw [heq, hb] at ha; exact absurd ha (by simp)
  · exact hl

theorem sortListing_dirs_first (es : List Entry) :
    List.Pairwise (fun a b : Entry => b.isDir = true → a.isDir = true) (sortListing es) :=
  (sortListing_pairwise es).imp (fun h => entryLE_dirs_first h)

theorem sortListing_name_order (es : List Entry) :
    List.Pairwise
      (fun a b : Entry => a.isDir = b.isDir → lexLe (lowerStr a.name) (lowerStr b.name) = true)
      (sortListing es) :=
  (sortListing_pairwise es).imp (fun h => entryLE_name_order h)

theorem list_local_files_cases (items : List LocalItem) :
    list_local_files items = [] ∨
    ∃ es, list_local_files items = sortListing es := by
  cases hm : items.mapM processLocal with
  | none => left; simp only [list_local_files, hm]
  | some es => right; exact ⟨es, by simp only [list_local_files, hm]⟩

theorem list_remote_files_cases (rp : Str) (env : ListEnv) :
    (list_remote_files rp env).1 = [] ∨
    ∃ items : List RemoteItem,
      (list_remote_files rp env).1 = sortListing (items.map (processRemote rp)) := by
  obtain ⟨eOk, f, rOk, s⟩ := env
  cases eOk
  · left; simp [list_remote_files]
  · cases f with
    | ok items =>
      right; exact ⟨items, by simp [list_remote_files, listRemoteEntries]⟩
    | otherErr => left; simp [list_remote_files]
    | transportErr =>
      cases rOk
      · left; simp [list_remote_files]
      · cases s with
        | ok items =>
          right; exact ⟨items, by simp [list_remote_files, listRemoteEntries]⟩
        | otherErr => left; simp [list_remote_files]
        | transportErr => left; simp [list_remote_files]

/-- Claim C6: both the local and the remote listing return their entries
sorted with directories first and, within each group (entries of equal
directory status), in case-insensitive name order. -/
theorem c6_listings_sorted (lits : List LocalItem) (rp : Str) (env : ListEnv) :
    (List.Pairwise (fun a b : Entry => b.isDir = true → a.isDir = true)
        (list_local_files lits) ∧
      List.Pairwise
        (fun a b : Entry => a.isDir = b.isDir → lexLe (lowerStr a.name) (lowerStr b.name) = true)
        (list_local_files lits)) ∧
    (List.Pairwise (fun a b : Entry => b.isDir = true → a.isDir = true)
        (list_remote_files rp env).1 ∧
      List.Pairwise
        (fun a b : Entry => a.isDir = b.isDir → lexLe (lowerStr a.name) (lowerStr b.name) = true)
        (list_remote_files rp env).1) := by
  constructor
  · rcases list_local_files_cases lits with h | ⟨es, h⟩
    · rw [h]; exact ⟨List.Pairwise.nil, List.Pairwise.nil⟩
    · rw [h]; exact ⟨sortListing_dirs_first es, sortListing_name_order es⟩
  · rcases list_remote_files_cases rp env with h | ⟨items, h⟩
    · rw [h]; exact ⟨List.Pairwise.nil, List.Pairwise.nil⟩
    · rw [h]
      exact ⟨sortListing_dirs_first _, sortListing_name_order _⟩

/-- Claim C7 (code_bug evaluation): a local directory holding a regular
file and a symlink whose target is missing makes `list_local_files`
return the empty list — the unguarded `item.stat()` (main.py line 229)
raises and the whole-listing handler discards every sibling — while the
remote listing on the analogous input annotates the broken link with
`(broken link)`, reports it as a non-directory, and still returns the
sibling. -/
theorem c7_broken_symlink_listing :
    list_local_files
      [LocalItem.plain (str "a.txt") { isDir := false, size := 5, ctime := 0, mtime := 0 },
       LocalItem.link (str "b") true (str "/gone") none] = [] ∧
    listRemoteEntries (str "/r")
      [{ filename := str "a.txt", kind := FileKind.regular, st_size := 5, st_mtime := 7,
         readlinkOk := false, linkTarget := [], targetStat := none },
       { filename := str "b", kind := FileKind.symlink, st_size := 3, st_mtime := 9,
         readlinkOk := true, linkTarget := str "x", targetStat := none }] =
      [{ name := str "a.txt", isDir := false, size := 5, isSymlink := false,
         symlinkTarget := [], targetIsDir := false, ctime := 7, mtime := 7 },
       { name := str "b", isDir := false, size := 3, isSymlink := true,
         symlinkTarget := str "(broken link)", targetIsDir := false,
         ctime := 9, mtime := 9 }] :=
  ⟨by decide, by decide⟩

/-- Claim C8: `expand_remote_path` returns the input unchanged for every
path not starting with `~`, whenever the home query fails (raises or
yields the empty string) or no client exists, and also for `~`-prefixed
paths other than `~` itself and `~/...`; with a usable client and a
nonempty home it rewrites `~` to the home directory and `~/rest` to
`home ++ /rest`.  It is a total function: no input makes it fail. -/
theorem c8_expand_home (hc : Bool) (hr : Option Str) (p : Str) :
    (strStarts p (str "~") = false → expand_remote_path hc hr p = p) ∧
    (hr = none → expand_remote_path hc hr p = p) ∧
    (hc = false → expand_remote_path hc hr p = p) ∧
    (hr = some [] → expand_remote_path hc hr p = p) ∧
    (∀ home : Str, hr = some home → home ≠ [] → hc = true → p = str "~" →
      expand_remote_path hc hr p = home) ∧
    (∀ home : Str, hr = some home → home ≠ [] → hc = true →
      strStarts p (str "~/") = true →
      expand_remote_path hc hr p = home ++ p.drop 1) ∧
    (strStarts p (str "~") = true → p ≠ str "~" → strStarts p (str "~/") = false →
      expand_remote_path hc hr p = p) := by
  refine ⟨?_, ?_, ?_, ?_, ?_, ?_, ?_⟩
  · intro h
    simp [expand_remote_path, h]
  · intro h
    subst h
    simp [expand_remote_path]
  · intro h
    subst h
    simp [expand_remote_path]
  · intro h
    subst h
    simp [expand_remote_path]
  · intro home hhr hne hhc hp
    subst hhr
    subst hhc
    subst hp
    rcases home with _ | ⟨x, xs⟩
    · exact absurd rfl hne
    · unfold expand_remote_path
      simp [str, strStarts]
  · intro home hhr hne hhc hs
    subst hhr
    subst hhc
    rcases p with _ | ⟨c, _ | ⟨d, t⟩⟩
    · simp [strStarts, str] at hs
    · simp [strStarts, str] at hs
    · obtain ⟨hcd, hdd⟩ : c = '~' ∧ d = '/' := by
        simpa [strStarts, str] using hs
      subst hcd
      subst hdd
      rcases home with _ | ⟨x, xs⟩
      · exact absurd rfl hne
      · unfold expand_remote_path
        simp [str, strStarts]
  · intro hs1 hne hs2
    cases hr with
    | none => simp [expand_remote_path]
    | some home => simp [expand_remote_path, hs1, hs2, hne]

/-- Witness for C8: with a client and home `/home/u`, the path `~/x`
expands to `/home/u` joined with the path after the alias. -/
theorem c8_expand_home_witness :
    expand_remote_path true (some (str "/home/u")) (str "~/x") =
      str "/home/u" ++ (str "~/x").drop 1 := by
  have h := c8_expand_home true (some (str "/home/u")) (str "~/x")
  exact h.2.2.2.2.2.1 (str "/home/u") rfl (by decide) rfl (by decide)

/-- Claim C9: `list_remote_files` never escapes with an exception: every
environment yields a value.  It makes exactly one `listdir_attr` attempt
unless that attempt fails with a transport error and the forced reconnect
succeeds, in which case it retries exactly once (never more than two
attempts); every failure path — no connection, unexpected error, failed
reconnect, or a failing retry — returns the empty listing. -/
theorem c9_list_remote_retry (rp : Str) (env : ListEnv) :
    (env.ensureOk = false → list_remote_files rp env = ([], 0)) ∧
    (∀ items : List RemoteItem, env.ensureOk = true →
      env.first = AttemptResult.ok items →
      list_remote_files rp env = (listRemoteEntries rp items, 1)) ∧
    (env.ensureOk = true → env.first = AttemptResult.otherErr →
      list_remote_files rp env = ([], 1)) ∧
    (env.ensureOk = true → env.first = AttemptResult.transportErr →
      env.reconnectOk = false → list_remote_files rp env = ([], 1)) ∧
    (∀ items : List RemoteItem, env.ensureOk = true →
      env.first = AttemptResult.transportErr → env.reconnectOk = true →
      env.second = AttemptResult.ok items →
      list_remote_files rp env = (listRemoteEntries rp items, 2)) ∧
    (env.ensureOk = true → env.first = AttemptResult.transportErr →
      env.reconnectOk = true →
      (env.second = AttemptResult.transportErr ∨ env.second = AttemptResult.otherErr) →
      list_remote_files rp env = ([], 2)) ∧
    (list_remote_files rp env).2 ≤ 2 := by
  obtain ⟨eOk, f, rOk, s⟩ := env
  refine ⟨?_, ?_, ?_, ?_, ?_, ?_, ?_⟩
  · intro he
    subst he
    simp [list_remote_files]
  · intro items he hf
    subst he
    subst hf
    simp [list_remote_files]
  · intro he hf
    subst he
    subst hf
    simp [list_remote_files]
  · intro he hf hrk
    subst he
    subst hf
    subst hrk
    simp [list_remote_files]
  · intro items he hf hrk hs
    subst he
    subst hf
    subst hrk
    subst hs
    simp [list_remote_files]
  · intro he hf hrk hs
    subst he
    subst hf
    subst hrk
    rcases hs with hs | hs
    · subst hs
      simp [list_remote_files]
    · subst hs
      simp [list_remote_files]
  · cases eOk <;> cases f <;> cases rOk <;> cases s <;> simp [list_remote_files]

/-- Witness for C9: first attempt hits a transport error, the reconnect
succeeds, the retry fails unexpectedly: the call returns the empty
listing after exactly two attempts. -/
theorem c9_list_remote_retry_witness :
    list_remote_files (str "/r")
      { ensureOk := true, first := AttemptResult.transportErr,
        reconnectOk := true, second := AttemptResult.otherErr } = ([], 2) := by
  have h := c9_list_remote_retry (str "/r")
    { ensureOk := true, first := AttemptResult.transportErr,
      reconnectOk := true, second := AttemptResult.otherErr }
  exact h.2.2.2.2.2.1 rfl rfl rfl (Or.inr rfl)

theorem progressEmits_cond_chain (total : ℕ) :
    ∀ (calls : List ℕ) (last : ℕ),
      List.Chain (fun a b => reportCond total a b = true) last
        (progressEmits total last calls)
  | [], last => List.Chain.nil
  | t :: ts, last => by
    cases hrc : reportCond total last t
    · simpa [progressEmits, hrc] using progressEmits_cond_chain total ts last
    · rw [progressEmits, if_pos hrc]
      exact List.Chain.cons hrc (progressEmits_cond_chain total ts t)

theorem progressEmits_pct_chain (total : ℕ) (hpos : 0 < total) :
    ∀ (calls : List ℕ) (last : ℕ),
      List.Pairwise (· < ·) calls →
      (∀ c ∈ calls, c ≤ total) →
      (∀ c ∈ calls, last < c ∨ last = 0) →
      List.Chain (fun a b => 100 * a / total < 100 * b / total) last
        (progressEmits total last calls) := by
  intro calls
  induction calls with
  | nil =>
    intro last _ _ _
    exact List.Chain.nil
  | cons t ts ih =>
    intro last hpw hle hinv
    obtain ⟨ht, hpw2⟩ := List.pairwise_cons.mp hpw
    have hts : ∀ c ∈ ts, c ≤ total := fun c hcm => hle c (List.mem_cons_of_mem _ hcm)
    cases hrc : reportCond total last t
    · rw [progressEmits, if_neg (by simp [hrc])]
      exact ih last hpw2 hts (fun c hcm => hinv c (List.mem_cons_of_mem _ hcm))
    · rw [progressEmits, if_pos hrc]
      refine List.Chain.cons ?_ (ih t hpw2 hts (fun c hcm => Or.inl (ht c hcm)))
      have hcases : t = total ∨ (0 < total ∧ 100 * last + total ≤ 100 * t) := by
        simpa [reportCond] using hrc
      rcases hcases with heq | ⟨_, hineq⟩
      · have h100 : 100 * t / total = 100 := by
          rw [heq, Nat.mul_div_assoc 100 (dvd_refl total), Nat.div_self hpos,
            Nat.mul_one]
        rw [h100]
        rcases hinv t (List.mem_cons_self _ _) with hl | hl
        · have hlt : last < total := heq ▸ hl
          have hmul : 100 * last < 100 * total := by omega
          exact (Nat.div_lt_iff_lt_mul hpos).mpr hmul
        · subst hl
          norm_num
      · have key : 100 * last / total + 1 ≤ 100 * t / total := by
          calc 100 * last / total + 1 = (100 * last + total) / total :=
                (Nat.add_div_right _ hpos).symm
            _ ≤ 100 * t / total := Nat.div_le_div_right hineq
        exact lt_of_lt_of_le (Nat.lt_succ_self _) key

/-- Claim C5: with a progress sink attached, consecutive emitted events
always satisfy the emit condition (byte count equal to the total, or
percentage advanced by at least 1 since the last emitted event, in exact
arithmetic), and for strictly increasing byte counts bounded by the total
no two emitted events share an integer percentage point (the integer
percentages are strictly increasing); in particular the invocation
sequence `(512, 1024)` then `(1024, 1024)` emits exactly the two events
at 512 and 1024 bytes. -/
theorem c5_progress_granularity (total : ℕ) (calls : List ℕ) (hpos : 0 < total)
    (hmono : List.Pairwise (· < ·) calls) (hle : ∀ c ∈ calls, c ≤ total) :
    List.Chain (fun a b => reportCond total a b = true) 0 (run_progress total calls) ∧
    List.Pairwise (fun a b => 100 * a / total < 100 * b / total)
      (run_progress total calls) ∧
    run_progress 1024 [512, 1024] = [512, 1024] := by
  refine ⟨progressEmits_cond_chain total calls 0, ?_, by decide⟩
  have hchain := progressEmits_pct_chain total hpos calls 0 hmono hle (fun c _ => Or.inr rfl)
  haveI : IsTrans ℕ (fun a b => 100 * a / total < 100 * b / total) :=
    ⟨fun a b c h1 h2 => lt_trans h1 h2⟩
  exact (List.chain_iff_pairwise.mp hchain).of_cons

/-- Witness for C5 at the spec's scenario. -/
theorem c5_progress_granularity_witness :
    (0 < 1024) ∧ List.Pairwise (· < ·) [512, 1024] ∧
    (∀ c ∈ [512, 1024], c ≤ 1024) ∧
    List.Pairwise (fun a b => 100 * a / 1024 < 100 * b / 1024)
      (run_progress 1024 [512, 1024]) := by
  refine ⟨by decide, by decide, by decide, ?_⟩
  exact (c5_progress_granularity 1024 [512, 1024] (by decide) (by decide)
    (by decide)).2.1

end Scptui
